import Mathlib

/-!
Verification of the monaca-lib synchronization and build-orchestration
engine (src/monaca.js) against its natural-language specification.

The embedding below is a shallow translation of the relevant JavaScript
into Lean.  JS strings are modelled as lists of characters, JS objects
keyed by path as association lists with unique keys, promise settlement
values as `Except`, and the asynchronous poller as an explicit step
function on a state record.  External collaborators (the HTTP transport,
the filesystem, the crc32 routine) are modelled by passing their observed
results as parameters; every piece of control flow is translated from the
source file.
-/

/-- A file-system path, modelled as the list of characters of the JS
string.  Paths are posix-style with a leading slash, as produced by
`path.join` with a leading "/" component in the source. -/
abbrev FPath := List Char

/-- Error and message values (JS strings). -/
abbrev Err := List Char

/-- The `type` field of a file-tree entry: the source stores the string
"file" or "dir". -/
inductive EType where
  | file
  | dir
deriving DecidableEq

/-- One value of a file-tree object: `obj.type` and `obj.hash`, where the
hash field is set (to a CRC32 hex string) only on file entries; `none`
models an absent (JS `undefined`) field. -/
structure Entry where
  type : EType
  hash : Option (List Char)
deriving DecidableEq

/-- A FileTree: a JS object keyed by path.  Modelled as an association
list; JS object semantics make the keys unique, which theorems assume as
a `Nodup` hypothesis where it matters. -/
abbrev FileTree := List (FPath × Entry)

/-- Property read on a file tree: `t.hasOwnProperty(k) ? t[k] : undefined`. -/
def ftLookup (t : FileTree) (k : FPath) : Option Entry :=
  match t with
  | [] => none
  | (k2, e) :: rest => if k2 = k then some e else ftLookup rest k

/-- The per-entry keep/delete decision of the loop body of
`Monaca.prototype._filterFiles`: an entry `d` of `dst` is deleted when
`d.type == 'dir'`, and otherwise when `src` has an entry `s` at the same
key with `d.hash === s.hash` (JS `undefined === undefined` is true, which
the `Option` equality reproduces). -/
def keepEntry (src : FileTree) (k : FPath) (e : Entry) : Bool :=
  match e.type with
  | EType.dir => false
  | EType.file =>
    match ftLookup src k with
    | none => true
    | some s => if e.hash = s.hash then false else true

/-- Effect of `Monaca.prototype._filterFiles(dst, src)` on the `dst`
object: the loop visits every key of `dst` once and deletes the keys the
decision above rejects, so the surviving object is this filter. -/
def filterFiles (dst src : FileTree) : FileTree :=
  dst.filter (fun kv => keepEntry src kv.1 kv.2)

/-- The call `_filterFiles(dst, src)` with the heap made explicit for two
distinct objects: the body mutates `dst` in place (deletions only) and
returns `undefined`; it never writes to `src` (the only operations on
`src` are `src.hasOwnProperty(key)` and the read `src[key]`), so the
post-call heap holds the filtered `dst` and the untouched `src`. -/
def filterFilesPair (dst src : FileTree) : FileTree × FileTree :=
  (filterFiles dst src, src)

/-- The test `fn.indexOf(SLASHDOT) >= 0` from the upload `fileFilter`,
where SLASHDOT is the two-character string "/.": true when some
occurrence of a slash immediately followed by a dot exists in `fn`. -/
def containsSlashDot : List Char → Bool
  | [] => false
  | [_] => false
  | a :: b :: rest => (a == '/' && b == '.') || containsSlashDot (b :: rest)

/-- The regex test of the upload `fileFilter`: the pattern anchors at the
start and accepts a leading slash followed by one of the literals
"www/", "merges/", "plugins/", or a remainder with no further slash
(a top-level file). -/
def inScope (fn : List Char) : Bool :=
  "/www/".toList.isPrefixOf fn || "/merges/".toList.isPrefixOf fn ||
  "/plugins/".toList.isPrefixOf fn ||
  (fn.head? == some '/' && !(fn.tail.contains '/'))

/-- The `fileFilter` closure of `Monaca.prototype.uploadProject`:
excludes hidden files and folders, then restricts to the /www, /merges
and /plugins folders and top-level files. -/
def fileFilter (fn : List Char) : Bool :=
  if containsSlashDot fn then false else inScope fn

/-- The upload transfer key set of `uploadProject`: the keys surviving
`_filterFiles(localFiles, remoteFiles)`, then
`Object.keys(localFiles).filter(fileFilter)`. -/
def uploadTransferKeys (localFiles remoteFiles : FileTree) : List FPath :=
  ((filterFiles localFiles remoteFiles).map Prod.fst).filter fileFilter

/-- Split a path string into its slash-separated segments, the way the
JS `split` on a slash would.  Used only to state the spec-level notion
of a hidden (dot-led) path segment. -/
def splitSegs : List Char → List (List Char)
  | [] => [[]]
  | c :: rest =>
    if c = '/' then [] :: splitSegs rest
    else
      match splitSegs rest with
      | [] => [[c]]
      | s :: ss => (c :: s) :: ss

/-- Spec-level predicate: the path has a hidden segment, one whose first
character is a dot. -/
def hasHiddenSeg (fn : List Char) : Bool :=
  (splitSegs fn).any (fun s => s.head? == some '.')

/-- One listed line of `shell.ls('-RA', projectDir)` together with what
the filesystem reports about it: its path relative to the project root
(posix separators), whether `fs.lstatSync` classifies it as a directory,
and for a file the CRC32 hex checksum of its contents as computed by the
`getFileChecksum` helper (the crc32 collaborator is modelled by passing
its result). -/
structure Listed where
  name : List Char
  isDir : Bool
  checksum : List Char
deriving DecidableEq

/-- The string "node_modules" against which `getLocalProjectFiles` tests
`name.indexOf('node_modules') !== 0`. -/
def nodeModulesStr : List Char := "node_modules".toList

/-- The key deleted unconditionally after the scan:
`delete files['/.monaca/local_properties.json']`. -/
def localPropsPath : List Char := "/.monaca/local_properties.json".toList

/-- The entry built for one listed name: directories get
`{ type: 'dir' }`, files get `{ type: 'file', hash: checksum }`. -/
def listedEntry (f : Listed) : Entry :=
  if f.isDir then { type := EType.dir, hash := none }
  else { type := EType.file, hash := some f.checksum }

/-- `Monaca.prototype.getLocalProjectFiles(projectDir)` as a function of
the observed filesystem: whether the root exists (`fs.exists`) and the
recursive listing.  The listing is filtered by
`name.indexOf('node_modules') !== 0`, each kept name is keyed by
`path.join('/', file)` (a leading slash), checksums are attached to file
entries, and the local-properties key is deleted before resolving.  A
missing root rejects with `projectDir + ' does not exist'`. -/
def getLocalProjectFiles (projectDir : List Char) (dirExists : Bool)
    (listing : List Listed) : Except Err FileTree :=
  if dirExists then
    Except.ok ((((listing.filter
        (fun f => !(nodeModulesStr.isPrefixOf f.name))).map
      (fun f => ('/' :: f.name, listedEntry f))).filter
      (fun kv => !(kv.1 == localPropsPath))))
  else
    Except.error (projectDir ++ " does not exist".toList)

/-- Spec-level predicate used by the claim about the scanner: the listed
name denotes the reserved dependency-cache directory itself or an entry
under it. -/
def underNodeModules (name : List Char) : Bool :=
  "node_modules/".toList.isPrefixOf name || name == nodeModulesStr

/-- `Q.all` over the per-task deferred promises, given the list of task
settlement outcomes in the order the tasks settle: it resolves when every
task resolves and rejects with the first rejection reason.  This models
the q promise library combinator applied to the `promises` array in
`uploadProject`, `downloadProject` and `cloneProject`. -/
def qAll : List (Except Err Unit) → Except Err Unit
  | [] => Except.ok ()
  | Except.ok _ :: rest => qAll rest
  | Except.error e :: _ => Except.error e

/-- The first rejection reason among the settlement outcomes, in
settlement order. -/
def firstError : List (Except Err Unit) → Option Err
  | [] => none
  | Except.ok _ :: rest => firstError rest
  | Except.error e :: _ => some e

/-- The overall batch outcome of `uploadProject`/`downloadProject`: the
`Q.all(promises).then` continuation resolves the outer deferred with the
project id and rejects it with the propagated error. -/
def batchOutcome (projectId : List Char) (outcomes : List (Except Err Unit)) :
    Except Err (List Char) :=
  match qAll outcomes with
  | Except.ok _ => Except.ok projectId
  | Except.error e => Except.error e

/-- One `progress` notification of a transfer batch, the object
`{ path, total, index }` passed to `deferred.notify`. -/
structure TransferProgressEv where
  path : List Char
  total : Nat
  index : Nat
deriving DecidableEq

/-- The progress events emitted by a transfer batch, given the per-task
completions in settlement order.  Translated from the per-task handlers
of `uploadProject`/`downloadProject`/`cloneProject`: the success handler
calls `deferred.notify(curly path, total: totalLength, index: currentIndex)`
and resolves `defers[currentIndex]`; the failure handler only rejects
`defers[currentIndex]`; the shared `currentIndex` counter is incremented
in `.finally` after either handler runs. -/
def batchEvents (total : Nat) : Nat → List (FPath × Except Err Unit) →
    List TransferProgressEv
  | _, [] => []
  | idx, (p, Except.ok _) :: rest =>
      { path := p, total := total, index := idx } :: batchEvents total (idx + 1) rest
  | idx, (_, Except.error _) :: rest => batchEvents total (idx + 1) rest

/-- Spec-level description of the emitted events: position-indexed
filtering of the completion sequence, keeping one event per successful
completion with the index at which it settled. -/
def specBatchEvents (total : Nat) (comps : List (FPath × Except Err Unit)) :
    List TransferProgressEv :=
  (comps.enumFrom 0).filterMap (fun x =>
    match x.2.2 with
    | Except.ok _ => some { path := x.2.1, total := total, index := x.1 }
    | Except.error _ => none)

/-- The `totalLength` computation of `Monaca.prototype.cloneProject`:
`Object.keys(files).map(k => files[k].type === 'file' ? 1 : 0).reduce((a,b) => a+b)`.
JS `Array.prototype.reduce` with no initial value throws a `TypeError`
on an empty array, modelled as `none`. -/
def cloneTotalLength (files : FileTree) : Option Nat :=
  match files.map (fun kv => if kv.2.type = EType.file then (1 : Nat) else 0) with
  | [] => none
  | x :: xs => some (xs.foldl (fun a b => a + b) x)

/-- The batch phase of `cloneProject` after the destination directory is
created and the remote tree is fetched, given the download completions in
settlement order (one per file-typed entry; the final
`localProperties.set` step is assumed to succeed).  `none` models the
thrown `TypeError` of the `totalLength` reduction, after which the outer
deferred never settles. -/
def cloneRun (files : FileTree) (comps : List (FPath × Except Err Unit)) :
    Option (Except Err Unit × List TransferProgressEv) :=
  match cloneTotalLength files with
  | none => none
  | some total => some (qAll (comps.map Prod.snd), batchEvents total 0 comps)

/-- JS falsiness of an optional string field: `undefined` (absent) and
the empty string are both falsy under the `!params.field` tests of
`buildProject`. -/
def jsFalsy : Option (List Char) → Bool
  | none => true
  | some s => s.isEmpty

/-- The build parameters relevant to validation and defaulting in
`Monaca.prototype.buildProject` (platform-specific options play no role
in that logic and are omitted). -/
structure BuildParams where
  platform : Option (List Char)
  framework_version : Option (List Char)
  purpose : Option (List Char)
deriving DecidableEq

/-- Observable outcome of the pre-submission phase of `buildProject`:
whether the outer deferred was rejected (and with which message), whether
the submit POST to the build endpoint was issued, and the parameter
object it carried. -/
structure SubmitPhase where
  rejectedWith : Option (List Char)
  submitSent : Bool
  sentParams : BuildParams
deriving DecidableEq

/-- The pre-submission phase of `Monaca.prototype.buildProject`: default
`framework_version` to "3.5" and `purpose` to "debug" when falsy, reject
when `platform` is falsy — and then, because the reject is not followed
by a `return`, fall through and issue `this._post(buildRoot, params)`
unconditionally. -/
def buildSubmitPhase (params : BuildParams) : SubmitPhase :=
  let p1 : BuildParams :=
    { params with
      framework_version :=
        if jsFalsy params.framework_version then some "3.5".toList
        else params.framework_version,
      purpose :=
        if jsFalsy params.purpose then some "debug".toList
        else params.purpose }
  { rejectedWith :=
      if jsFalsy p1.platform then some "Must specify build platform.".toList
      else none,
    submitSent := true,
    sentParams := p1 }

/-- State of the `pollBuild` closure of `buildProject` across firings of
its `setInterval` callback: the `counter` variable, whether the interval
is still registered, the settlement of its deferred (here only the
timeout rejection can occur), and how many status POSTs have been
issued. -/
structure PollState where
  counter : Nat
  intervalActive : Bool
  settled : Option Err
  pollsIssued : Nat
deriving DecidableEq

/-- The rejection reason of the poll timeout. -/
def timedOutMsg : Err := "Build timed out".toList

/-- The initial poll state: `counter = 0`, interval registered, deferred
pending, no status request issued yet. -/
def pollInit : PollState :=
  { counter := 0, intervalActive := true, settled := none, pollsIssued := 0 }

/-- One firing of the `setInterval` callback of `pollBuild`, in the
scenario of the timeout claim: every status response eventually returns
with `finished = false`, so the response handler only notifies and never
settles or clears anything.  The callback tests `counter++ == 80`; when
it hits, it clears the interval and rejects with the timeout message, but
there is no `return` statement, so the callback falls through and still
issues the status POST of that firing.  Rejecting an already settled q
deferred is a no-op.  A cleared interval fires no further callbacks. -/
def pollTick (s : PollState) : PollState :=
  if s.intervalActive = false then s
  else
    let s1 : PollState :=
      if s.counter = 80 then
        { s with
          counter := s.counter + 1,
          intervalActive := false,
          settled := match s.settled with
            | none => some timedOutMsg
            | some m => some m }
      else { s with counter := s.counter + 1 }
    { s1 with pollsIssued := s1.pollsIssued + 1 }

/-- The poll state after `n` timer firings. -/
def pollRun : Nat → PollState
  | 0 => pollInit
  | n + 1 => pollTick (pollRun n)

/-- The status response object `JSON.parse(response).result` of the
build status endpoint. -/
structure StatusResult where
  finished : Bool
  status : List Char
  description : List Char
deriving DecidableEq

/-- The result object `JSON.parse(response).result` of the build result
endpoint: the structured error message together with the rest of the
payload (artifact information and so on), which the success path resolves
with as a whole. -/
structure ResultPayload where
  error_message : List Char
  artifactInfo : List Char
deriving DecidableEq

/-- Settlement trace of the `result.finished` branch of the status
handler in `pollBuild`: the interval is cleared; on `status === 'finish'`
the poll deferred resolves with the description, otherwise the branch
posts to the result endpoint (its response assumed here to arrive
successfully as `res`) and rejects with the parsed
`result.error_message`. -/
structure PollSettleTrace where
  intervalCleared : Bool
  resultFetchedInPoll : Bool
  pollOutcome : Except Err (List Char)

/-- The `result.finished` branch of `pollBuild`, translated from the
status-response handler. -/
def pollFinishedBranch (st : StatusResult) (res : ResultPayload) :
    PollSettleTrace :=
  if st.status = "finish".toList then
    { intervalCleared := true, resultFetchedInPoll := false,
      pollOutcome := Except.ok st.description }
  else
    { intervalCleared := true, resultFetchedInPoll := true,
      pollOutcome := Except.error res.error_message }

/-- Settlement trace of the continuation `pollBuild(queueId).then(...)`
inside `buildProject`: on poll success it posts the result endpoint (its
response assumed to arrive successfully) and resolves the outer deferred
with the parsed result payload; on poll failure it rejects the outer
deferred with the propagated error and issues no further request. -/
structure BuildSettleTrace where
  resultFetchedInBuild : Bool
  outcome : Except Err ResultPayload

/-- The continuation of `buildProject` on the settlement of the poll
promise. -/
def buildProjectCont (pollOutcome : Except Err (List Char))
    (res : ResultPayload) : BuildSettleTrace :=
  match pollOutcome with
  | Except.ok _ => { resultFetchedInBuild := true, outcome := Except.ok res }
  | Except.error e =>
      { resultFetchedInBuild := false, outcome := Except.error e }

/-- Overall outcome of `buildProject` for a poll cycle whose status
response reports the job finished, with the result-endpoint response
`res`. -/
def buildFinishedOutcome (st : StatusResult) (res : ResultPayload) :
    Except Err ResultPayload :=
  (buildProjectCont (pollFinishedBranch st res).pollOutcome res).outcome

/-- Whether the result endpoint was fetched anywhere on that path. -/
def buildFinishedFetched (st : StatusResult) (res : ResultPayload) : Bool :=
  (pollFinishedBranch st res).resultFetchedInPoll ||
    (buildProjectCont (pollFinishedBranch st res).pollOutcome res).resultFetchedInBuild

/-- Build params with every field unset, used by the validation
counterexample and witnesses. -/
def emptyParams : BuildParams :=
  { platform := none, framework_version := none, purpose := none }

/-- Concrete finished status response with the success status, used by
witnesses. -/
def stFinish0 : StatusResult :=
  { finished := true, status := "finish".toList, description := "ok".toList }

/-- Concrete result-endpoint payload used by witnesses. -/
def resPayload0 : ResultPayload :=
  { error_message := "err".toList, artifactInfo := "app.apk".toList }

/-- Concrete listing with a top-level file whose name merely starts with
the characters of the dependency-cache directory name. -/
def nmListing : List Listed :=
  [{ name := "node_modules.txt".toList, isDir := false,
     checksum := "aa".toList }]

/-- Concrete file-only tree used by witnesses. -/
def demoTree : FileTree :=
  [("/www/index.html".toList, { type := EType.file, hash := some "a1b2".toList }),
   ("/www/app.js".toList, { type := EType.file, hash := some "c3d4".toList })]

/-- Concrete local tree with one changed file, used by witnesses. -/
def demoLocal : FileTree :=
  [("/www/a.js".toList, { type := EType.file, hash := some "111".toList })]

/-- Concrete directory-only tree used by witnesses. -/
def demoDirTree : FileTree :=
  [("/www".toList, { type := EType.dir, hash := none })]

/-- Association lookup on a tree with duplicate-free keys finds the
member entry itself. -/
theorem ftLookup_eq_of_mem (T : FileTree) (k : FPath) (e : Entry)
    (hnd : (T.map Prod.fst).Nodup) (hm : (k, e) ∈ T) :
    ftLookup T k = some e := by
  induction T with
  | nil => cases hm
  | cons kv rest ih =>
    obtain ⟨k2, e2⟩ := kv
    simp only [List.map_cons, List.nodup_cons] at hnd
    rcases List.mem_cons.mp hm with h | h
    · obtain ⟨hk, he⟩ := Prod.mk.injEq .. ▸ h.symm
      subst hk
      subst he
      simp [ftLookup]
    · have hk : k2 ≠ k := by
        intro hh
        exact hnd.1 (hh ▸ (List.mem_map.mpr ⟨(k, e), h, rfl⟩))
      simp only [ftLookup, if_neg hk]
      exact ih hnd.2 h

/-- Characterization of the keep/delete decision of the diff loop. -/
theorem keepEntry_true_iff (src : FileTree) (k : FPath) (e : Entry) :
    keepEntry src k e = true ↔
      e.type = EType.file ∧
        (ftLookup src k = none ∨
          ∃ s, ftLookup src k = some s ∧ s.hash ≠ e.hash) := by
  obtain ⟨ty, h⟩ := e
  cases ty with
  | dir => simp [keepEntry]
  | file =>
    simp only [keepEntry, true_and]
    cases hl : ftLookup src k with
    | none => simp
    | some s =>
      by_cases hh : h = s.hash
      · simp [hh]
      · simp only [if_neg hh, true_iff]
        exact Or.inr ⟨s, rfl, fun hs => hh hs.symm⟩

/-- Diffing a duplicate-free all-file tree against itself leaves
nothing. -/
theorem filterFiles_self (T : FileTree) (hnd : (T.map Prod.fst).Nodup)
    (_hf : ∀ kv ∈ T, (Prod.snd kv).type = EType.file) :
    filterFiles T T = [] := by
  rw [filterFiles, List.filter_eq_nil_iff]
  intro kv hm hkeep
  rw [keepEntry_true_iff] at hkeep
  have hl : ftLookup T kv.1 = some kv.2 :=
    ftLookup_eq_of_mem T kv.1 kv.2 hnd (Prod.mk.eta.symm ▸ hm)
  rcases hkeep with ⟨-, h | ⟨s, hs, hne⟩⟩
  · rw [hl] at h
    exact Option.noConfusion h
  · rw [hl] at hs
    injection hs with hs2
    exact hne (congrArg Entry.hash hs2.symm)

/-- C1: the diff (`_filterFiles` applied to destination and source)
keeps exactly the file-typed entries of the destination whose path is
absent from the source or carries a different content hash there; every
directory entry and every hash-matched file entry is removed, and
diffing a file-only tree against itself yields the empty tree. -/
theorem c1_diff_filterFiles :
    (∀ (dst src : FileTree) (k : FPath) (e : Entry),
      ((k, e) ∈ filterFiles dst src ↔
        (k, e) ∈ dst ∧ e.type = EType.file ∧
          (ftLookup src k = none ∨
            ∃ s, ftLookup src k = some s ∧ s.hash ≠ e.hash))) ∧
    (∀ T : FileTree, (T.map Prod.fst).Nodup →
      (∀ kv ∈ T, (Prod.snd kv).type = EType.file) →
      filterFiles T T = []) := by
  constructor
  · intro dst src k e
    rw [filterFiles, List.mem_filter]
    simp only [keepEntry_true_iff]
  · exact filterFiles_self

/-- Witness for C1: evaluating the self-diff part on a concrete
two-file tree. -/
theorem c1_diff_filterFiles_witness :
    filterFiles demoTree demoTree = [] :=
  c1_diff_filterFiles.2 demoTree (by decide) (by decide)

/-- C10: `_filterFiles(dst, src)` on two distinct tree objects leaves
the source tree untouched, and its whole effect on the destination is
the in-place deletion of keys: the surviving tree is a sublist of the
destination whose members are exactly the destination entries the loop
decision keeps, with no entry added or rewritten. -/
theorem c10_filterFiles_frame :
    ∀ (dst src : FileTree),
      (filterFilesPair dst src).2 = src ∧
      List.Sublist (filterFilesPair dst src).1 dst ∧
      (∀ kv : FPath × Entry,
        kv ∈ (filterFilesPair dst src).1 ↔
          kv ∈ dst ∧ keepEntry src kv.1 kv.2 = true) := by
  intro dst src
  exact ⟨rfl, List.filter_sublist dst, fun kv => List.mem_filter⟩

/-- The segment split of a string is never the empty list of segments. -/
theorem splitSegs_ne_nil (l : List Char) : splitSegs l ≠ [] := by
  cases l with
  | nil => simp [splitSegs]
  | cons c rest =>
    rw [splitSegs]
    by_cases hc : c = '/'
    · simp [hc]
    · rw [if_neg hc]
      cases h : splitSegs rest <;> simp

/-- Dropping the leading element of a slash-dot-free string keeps it
slash-dot free. -/
theorem containsSlashDot_tail {c : Char} {rest : List Char}
    (h : containsSlashDot (c :: rest) = false) :
    containsSlashDot rest = false := by
  cases rest with
  | nil => rfl
  | cons b r2 =>
    rw [containsSlashDot, Bool.or_eq_false_iff] at h
    exact h.2

/-- If the first segment of a split starts with some character, the
string itself starts with it. -/
theorem firstSeg_head (l : List Char) (s : List Char) (ss : List (List Char))
    (hsp : splitSegs l = s :: ss) (c : Char) (hh : s.head? = some c) :
    l.head? = some c := by
  cases l with
  | nil =>
    rw [splitSegs] at hsp
    injection hsp with h1 _
    rw [← h1] at hh
    cases hh
  | cons c0 rest =>
    rw [splitSegs] at hsp
    by_cases hc : c0 = '/'
    · rw [if_pos hc] at hsp
      injection hsp with h1 _
      rw [← h1] at hh
      cases hh
    · rw [if_neg hc] at hsp
      cases hr : splitSegs rest with
      | nil =>
        rw [hr] at hsp
        injection hsp with h1 _
        rw [← h1] at hh
        injection hh with hh2
        rw [hh2]
        rfl
      | cons s0 ss0 =>
        rw [hr] at hsp
        injection hsp with h1 _
        rw [← h1] at hh
        injection hh with hh2
        rw [hh2]
        rfl

/-- In a slash-dot-free string, no segment after the first starts with a
dot. -/
theorem tail_segs_no_dot (l : List Char) (h : containsSlashDot l = false) :
    ∀ s ∈ (splitSegs l).tail, s.head? ≠ some '.' := by
  induction l with
  | nil =>
    intro s hs
    rw [splitSegs] at hs
    cases hs
  | cons c rest ih =>
    intro s hs
    by_cases hc : c = '/'
    · rw [splitSegs, if_pos hc, List.tail_cons] at hs
      cases hr : splitSegs rest with
      | nil => exact absurd hr (splitSegs_ne_nil rest)
      | cons s0 ss0 =>
        rw [hr] at hs
        rcases List.mem_cons.mp hs with rfl | hmem
        · intro hh
          have hhead := firstSeg_head rest s ss0 hr '.' hh
          cases rest with
          | nil => cases hhead
          | cons b r2 =>
            injection hhead with hb
            subst hc
            subst hb
            simp [containsSlashDot] at h
        · have hr2 : containsSlashDot rest = false := containsSlashDot_tail h
          exact ih hr2 s (by rw [hr, List.tail_cons]; exact hmem)
    · rw [splitSegs, if_neg hc] at hs
      cases hr : splitSegs rest with
      | nil =>
        rw [hr, List.tail_cons] at hs
        cases hs
      | cons s0 ss0 =>
        rw [hr, List.tail_cons] at hs
        have hr2 : containsSlashDot rest = false := containsSlashDot_tail h
        exact ih hr2 s (by rw [hr, List.tail_cons]; exact hs)

/-- A nonempty literal prefix pins down the head of the string. -/
theorem isPrefixOf_head {c : Char} {l fn : List Char}
    (h : (c :: l).isPrefixOf fn = true) : fn.head? = some c := by
  cases fn with
  | nil => exact absurd h (by simp [List.isPrefixOf])
  | cons b bs =>
    rw [List.isPrefixOf] at h
    simp only [Bool.and_eq_true, beq_iff_eq] at h
    rw [h.1]
    rfl

/-- A path accepted by the upload scope test starts with a slash. -/
theorem inScope_head (fn : List Char) (h : inScope fn = true) :
    ∃ rest, fn = '/' :: rest := by
  have hh : fn.head? = some '/' := by
    rw [inScope] at h
    rcases Bool.or_eq_true_iff.mp h with h3 | h4
    · rcases Bool.or_eq_true_iff.mp h3 with h1 | h2
      · rcases Bool.or_eq_true_iff.mp h1 with h0 | h0
        · exact isPrefixOf_head h0
        · exact isPrefixOf_head h0
      · exact isPrefixOf_head h2
    · simp only [Bool.and_eq_true, beq_iff_eq] at h4
      exact h4.1
  cases fn with
  | nil => cases hh
  | cons b bs =>
    injection hh with hb
    exact ⟨bs, by rw [hb]⟩

/-- A path accepted by the upload `fileFilter` has no hidden
(dot-led) segment. -/
theorem fileFilter_no_hidden (fn : List Char) (h : fileFilter fn = true) :
    hasHiddenSeg fn = false := by
  rw [fileFilter] at h
  cases hcs : containsSlashDot fn with
  | true => simp [hcs] at h
  | false =>
    have hsc : inScope fn = true := by simpa [hcs] using h
    obtain ⟨rest, rfl⟩ := inScope_head fn hsc
    rw [hasHiddenSeg, splitSegs, if_pos rfl]
    rw [List.any_cons]
    have h0 : (List.head? ([] : List Char) == some '.') = false := by decide
    rw [h0, Bool.false_or, List.any_eq_false]
    intro s hs
    have := tail_segs_no_dot ('/' :: rest) hcs s
      (by rw [splitSegs, if_pos rfl, List.tail_cons]; exact hs)
    simpa using this

/-- C2: a path enters the upload transfer set only if it has no hidden
(dot-led) segment and is in scope: under /www/, /merges/ or /plugins/, or
a top-level file; in particular the path /.monaca/secret.json is never in
the upload transfer set, whatever the local and remote trees are. -/
theorem c2_upload_scope :
    (∀ (localFiles remoteFiles : FileTree) (k : FPath),
      k ∈ uploadTransferKeys localFiles remoteFiles →
        hasHiddenSeg k = false ∧
          ("/www/".toList.isPrefixOf k = true ∨
           "/merges/".toList.isPrefixOf k = true ∨
           "/plugins/".toList.isPrefixOf k = true ∨
           (k.head? = some '/' ∧ k.tail.contains '/' = false))) ∧
    (∀ (localFiles remoteFiles : FileTree),
      "/.monaca/secret.json".toList ∉ uploadTransferKeys localFiles remoteFiles) := by
  constructor
  · intro lf rf k hk
    have hff : fileFilter k = true := (List.mem_filter.mp hk).2
    refine ⟨fileFilter_no_hidden k hff, ?_⟩
    have hsc : inScope k = true := by
      rw [fileFilter] at hff
      cases hcs : containsSlashDot k with
      | true => simp [hcs] at hff
      | false => simpa [hcs] using hff
    rw [inScope] at hsc
    rcases Bool.or_eq_true_iff.mp hsc with h3 | h4
    · rcases Bool.or_eq_true_iff.mp h3 with h1 | h2
      · rcases Bool.or_eq_true_iff.mp h1 with h0 | h0
        · exact Or.inl h0
        · exact Or.inr (Or.inl h0)
      · exact Or.inr (Or.inr (Or.inl h2))
    · simp only [Bool.and_eq_true, beq_iff_eq, Bool.not_eq_true'] at h4
      exact Or.inr (Or.inr (Or.inr h4))
  · intro lf rf hk
    have hff : fileFilter "/.monaca/secret.json".toList = true :=
      (List.mem_filter.mp hk).2
    exact absurd hff (by decide)

/-- Witness for C2: a concrete in-scope key of a concrete upload
transfer set satisfies the scope conclusion. -/
theorem c2_upload_scope_witness :
    hasHiddenSeg "/www/a.js".toList = false ∧
      ("/www/".toList.isPrefixOf "/www/a.js".toList = true ∨
       "/merges/".toList.isPrefixOf "/www/a.js".toList = true ∨
       "/plugins/".toList.isPrefixOf "/www/a.js".toList = true ∨
       ("/www/a.js".toList.head? = some '/' ∧
        "/www/a.js".toList.tail.contains '/' = false)) :=
  c2_upload_scope.1 demoLocal [] "/www/a.js".toList (by decide)

/-- A firing of a cleared interval changes nothing (no callback runs). -/
theorem pollTick_inactive (s : PollState) (h : s.intervalActive = false) :
    pollTick s = s := by
  rw [pollTick, if_pos h]

/-- Up to the 80th firing the counter and the number of issued status
polls both track the tick count, the interval stays registered, and the
poll deferred stays pending. -/
theorem pollRun_le_80 (n : Nat) (h : n ≤ 80) :
    pollRun n =
      { counter := n, intervalActive := true, settled := none,
        pollsIssued := n } := by
  induction n with
  | zero => rfl
  | succ m ih =>
    have hm : m ≤ 80 := Nat.le_of_succ_le h
    have hne : ¬(m = 80) := by omega
    rw [pollRun, ih hm, pollTick]
    simp [hne]

/-- The 81st firing trips the `counter++ == 80` test: it clears the
interval, rejects with the timeout message, and still issues one more
status poll before returning. -/
theorem pollRun_81 :
    pollRun 81 =
      { counter := 81, intervalActive := false, settled := some timedOutMsg,
        pollsIssued := 81 } := by
  rw [pollRun, pollRun_le_80 80 (Nat.le_refl 80)]
  rfl

/-- Once the interval is cleared, the poll state never changes again. -/
theorem pollRun_const (m : Nat) : pollRun (81 + m) = pollRun 81 := by
  induction m with
  | zero => rfl
  | succ k ih =>
    show pollTick (pollRun (81 + k)) = pollRun 81
    rw [ih, pollRun_81]
    exact pollTick_inactive _ rfl

/-- C3 counterexample: when the timeout rejection is declared (the 81st
firing, after 80 issued polls), the very same callback still issues an
81st status poll, because the rejection is not followed by a return; so
a further status poll is issued after the timeout is declared. -/
theorem c3_counterexample :
    (pollRun 81).settled = some timedOutMsg ∧
      (pollRun 81).pollsIssued = 81 := by
  rw [pollRun_81]
  exact ⟨rfl, rfl⟩

/-- C3 (amended): if the status responses never report the job finished,
the 81st timer firing (the one that finds the attempt counter at 80)
rejects the orchestration with the build-timeout error and clears the
interval, so no later firing occurs and the state is constant from then
on; the deferred is still pending at every earlier firing.  However,
that same 81st callback still issues one final status poll after
declaring the timeout, bringing the total to 81. -/
theorem c3_amended_timeout :
    (pollRun 81).settled = some timedOutMsg ∧
    (pollRun 81).intervalActive = false ∧
    (pollRun 81).pollsIssued = 81 ∧
    (∀ m : Nat, pollRun (81 + m) = pollRun 81) ∧
    (∀ n : Nat, n ≤ 80 →
      (pollRun n).settled = none ∧ (pollRun n).pollsIssued = n) := by
  refine ⟨?_, ?_, ?_, pollRun_const, ?_⟩
  · rw [pollRun_81]
  · rw [pollRun_81]
  · rw [pollRun_81]
  · intro n hn
    rw [pollRun_le_80 n hn]
    exact ⟨rfl, rfl⟩

/-- Witness for the amended C3: the state just before the timeout
firing, evaluated concretely. -/
theorem c3_amended_timeout_witness :
    (pollRun 80).settled = none ∧ (pollRun 80).pollsIssued = 80 :=
  c3_amended_timeout.2.2.2.2 80 (by decide)

/-- C4 counterexample: with `platform` absent, `buildProject` rejects
with the validation message, yet the submit POST to the remote build
endpoint is still issued, because the rejection is not followed by a
return. -/
theorem c4_counterexample :
    (buildSubmitPhase emptyParams).rejectedWith =
      some "Must specify build platform.".toList ∧
    (buildSubmitPhase emptyParams).submitSent = true :=
  ⟨rfl, rfl⟩

/-- C4 (amended): for params without a platform, `buildProject` fails
with the validation error, but the submit request is nevertheless still
sent to the remote build service; for every params object, an unset
framework version is defaulted to 3.5 and an unset purpose to debug on
the submitted parameters. -/
theorem c4_amended_validation :
    ∀ params : BuildParams,
      (params.platform = none →
        (buildSubmitPhase params).rejectedWith =
          some "Must specify build platform.".toList) ∧
      (buildSubmitPhase params).submitSent = true ∧
      (params.framework_version = none →
        (buildSubmitPhase params).sentParams.framework_version =
          some "3.5".toList) ∧
      (params.purpose = none →
        (buildSubmitPhase params).sentParams.purpose =
          some "debug".toList) := by
  intro p
  refine ⟨?_, rfl, ?_, ?_⟩
  · intro h
    simp [buildSubmitPhase, h, jsFalsy]
  · intro h
    simp [buildSubmitPhase, h, jsFalsy]
  · intro h
    simp [buildSubmitPhase, h, jsFalsy]

/-- Witness for the amended C4, at the all-absent params object. -/
theorem c4_amended_validation_witness :
    (buildSubmitPhase emptyParams).rejectedWith =
      some "Must specify build platform.".toList ∧
    (buildSubmitPhase emptyParams).sentParams.framework_version =
      some "3.5".toList ∧
    (buildSubmitPhase emptyParams).sentParams.purpose = some "debug".toList :=
  ⟨(c4_amended_validation _).1 rfl,
   (c4_amended_validation _).2.2.1 rfl,
   (c4_amended_validation _).2.2.2 rfl⟩

/-- The batch combinator resolves exactly when every task outcome is a
resolution. -/
theorem qAll_ok_iff (outcomes : List (Except Err Unit)) :
    qAll outcomes = Except.ok () ↔ ∀ r ∈ outcomes, r = Except.ok () := by
  induction outcomes with
  | nil => simp [qAll]
  | cons r rest ih =>
    cases r with
    | ok u =>
      cases u
      simp [qAll, ih]
    | error e => simp [qAll]

/-- The batch combinator rejects exactly with the first rejection reason
in settlement order. -/
theorem qAll_error_iff (outcomes : List (Except Err Unit)) (e : Err) :
    qAll outcomes = Except.error e ↔ firstError outcomes = some e := by
  induction outcomes with
  | nil => simp [qAll, firstError]
  | cons r rest ih =>
    cases r with
    | ok u =>
      cases u
      simpa [qAll, firstError] using ih
    | error e2 => simp [qAll, firstError]

/-- The first rejection reason is the error of one of the tasks. -/
theorem firstError_mem (outcomes : List (Except Err Unit)) (e : Err)
    (h : firstError outcomes = some e) : Except.error e ∈ outcomes := by
  induction outcomes with
  | nil => cases h
  | cons r rest ih =>
    cases r with
    | ok u =>
      exact List.mem_cons_of_mem _ (ih (by simpa [firstError] using h))
    | error e2 =>
      rw [firstError] at h
      injection h with h2
      rw [← h2]
      exact List.mem_cons_self _ _

/-- The batch outcome resolves with the project id exactly when the
underlying combinator resolves. -/
theorem batchOutcome_ok_iff (pid : List Char)
    (outcomes : List (Except Err Unit)) :
    batchOutcome pid outcomes = Except.ok pid ↔
      qAll outcomes = Except.ok () := by
  rw [batchOutcome]
  cases hq : qAll outcomes with
  | ok u =>
    cases u
    simp
  | error e => simp

/-- The batch outcome rejects exactly as the underlying combinator
rejects. -/
theorem batchOutcome_error_iff (pid : List Char)
    (outcomes : List (Except Err Unit)) (e : Err) :
    batchOutcome pid outcomes = Except.error e ↔
      qAll outcomes = Except.error e := by
  rw [batchOutcome]
  cases hq : qAll outcomes with
  | ok u =>
    cases u
    simp
  | error e2 => simp

/-- C5: a transfer batch of uploadProject/downloadProject resolves with
the project id exactly when every individual transfer task succeeds; if
any fails, the batch rejects, and its single failure cause is the first
failing task's error, which is the error of one of the tasks (no
aggregation). -/
theorem c5_batch_all_or_nothing :
    ∀ (projectId : List Char) (outcomes : List (Except Err Unit)),
      (batchOutcome projectId outcomes = Except.ok projectId ↔
        ∀ r ∈ outcomes, r = Except.ok ()) ∧
      (∀ e : Err, batchOutcome projectId outcomes = Except.error e ↔
        firstError outcomes = some e) ∧
      (∀ e : Err, batchOutcome projectId outcomes = Except.error e →
        Except.error e ∈ outcomes) := by
  intro pid outcomes
  refine ⟨?_, ?_, ?_⟩
  · rw [batchOutcome_ok_iff]
    exact qAll_ok_iff outcomes
  · intro e
    rw [batchOutcome_error_iff]
    exact qAll_error_iff outcomes e
  · intro e h
    exact firstError_mem outcomes e
      ((qAll_error_iff outcomes e).mp ((batchOutcome_error_iff pid outcomes e).mp h))

/-- Witness for C5: a concrete three-task batch whose second and third
tasks fail rejects with the error of the first task to fail. -/
theorem c5_batch_all_or_nothing_witness :
    Except.error "boom".toList ∈
      ([Except.ok (), Except.error "boom".toList, Except.error "late".toList] :
        List (Except Err Unit)) :=
  (c5_batch_all_or_nothing "pid".toList
      [Except.ok (), Except.error "boom".toList,
        Except.error "late".toList]).2.2 "boom".toList rfl

/-- C6: when a status response reports the job finished, the interval is
cleared and the result endpoint is fetched on both terminal paths; with
the success status the orchestration resolves with the result payload,
and with any other finished status it rejects with the structured error
message obtained from the result endpoint. -/
theorem c6_finished_dispatch :
    ∀ (st : StatusResult) (res : ResultPayload),
      st.finished = true →
        (pollFinishedBranch st res).intervalCleared = true ∧
        buildFinishedFetched st res = true ∧
        (st.status = "finish".toList →
          buildFinishedOutcome st res = Except.ok res) ∧
        (st.status ≠ "finish".toList →
          buildFinishedOutcome st res = Except.error res.error_message) := by
  intro st res _hfin
  by_cases hs : st.status = "finish".toList
  · refine ⟨?_, ?_, fun _ => ?_, fun hne => absurd hs hne⟩
    · simp [pollFinishedBranch, hs]
    · simp [buildFinishedFetched, pollFinishedBranch, buildProjectCont, hs]
    · simp [buildFinishedOutcome, pollFinishedBranch, buildProjectCont, hs]
  · have hb : pollFinishedBranch st res =
        { intervalCleared := true, resultFetchedInPoll := true,
          pollOutcome := Except.error res.error_message } := by
      rw [pollFinishedBranch, if_neg hs]
    refine ⟨?_, ?_, fun heq => absurd heq hs, fun _ => ?_⟩
    · rw [hb]
    · show ((pollFinishedBranch st res).resultFetchedInPoll ||
        (buildProjectCont (pollFinishedBranch st res).pollOutcome
          res).resultFetchedInBuild) = true
      rw [hb]
      rfl
    · show (buildProjectCont (pollFinishedBranch st res).pollOutcome
        res).outcome = Except.error res.error_message
      rw [hb]
      rfl

/-- Witness for C6: the success path at a concrete finished status and
result payload. -/
theorem c6_finished_dispatch_witness :
    (pollFinishedBranch stFinish0 resPayload0).intervalCleared = true ∧
    buildFinishedFetched stFinish0 resPayload0 = true ∧
    buildFinishedOutcome stFinish0 resPayload0 = Except.ok resPayload0 := by
  obtain ⟨h1, h2, h3, -⟩ := c6_finished_dispatch stFinish0 resPayload0 rfl
  exact ⟨h1, h2, h3 rfl⟩

/-- C7 counterexample: a top-level file named node_modules.txt is not
under the dependency-cache directory and is not the local-metadata file,
yet the scan excludes it, because the filter tests whether the name
merely starts with the characters node_modules. -/
theorem c7_counterexample :
    underNodeModules "node_modules.txt".toList = false ∧
    ('/' :: "node_modules.txt".toList) ≠ localPropsPath ∧
    getLocalProjectFiles "/proj".toList true nmListing = Except.ok [] := by
  refine ⟨by decide, by decide, rfl⟩

/-- C7 (amended): on an existing root the scan covers exactly the listed
entries whose root-relative name does not start with the characters
node_modules (a test that also drops names such as node_modules.txt and
keeps nested node_modules directories), minus the local-metadata key,
which is removed unconditionally; each kept name is keyed with a leading
slash and carries its directory/file classification and, for files, its
content checksum.  A nonexistent root fails with the does-not-exist
error. -/
theorem c7_scan_amended :
    ∀ (projectDir : List Char) (listing : List Listed),
      (∃ t : FileTree,
        getLocalProjectFiles projectDir true listing = Except.ok t ∧
        ∀ kv : FPath × Entry,
          (kv ∈ t ↔ ∃ f ∈ listing,
            kv = ('/' :: f.name, listedEntry f) ∧
            nodeModulesStr.isPrefixOf f.name = false ∧
            ('/' :: f.name) ≠ localPropsPath)) ∧
      getLocalProjectFiles projectDir false listing =
        Except.error (projectDir ++ " does not exist".toList) := by
  intro pd listing
  constructor
  · refine ⟨_, rfl, ?_⟩
    intro kv
    constructor
    · intro hkv
      obtain ⟨hmap, hq⟩ := List.mem_filter.mp hkv
      obtain ⟨f, hf, hg⟩ := List.mem_map.mp hmap
      obtain ⟨hfl, hp⟩ := List.mem_filter.mp hf
      refine ⟨f, hfl, hg.symm, by simpa using hp, ?_⟩
      have hq2 := hq
      rw [← hg] at hq2
      simpa using hq2
    · rintro ⟨f, hfl, rfl, hnm, hlp⟩
      refine List.mem_filter.mpr
        ⟨List.mem_map.mpr ⟨f, List.mem_filter.mpr ⟨hfl, ?_⟩, rfl⟩, ?_⟩
      · simpa using hnm
      · simpa using hlp
  · rfl

/-- The events a batch emits, with the start index generalized: one
event per successful completion, indexed by settlement position. -/
theorem batchEvents_eq_enumFrom (total idx : Nat)
    (comps : List (FPath × Except Err Unit)) :
    batchEvents total idx comps = (comps.enumFrom idx).filterMap (fun x =>
      match x.2.2 with
      | Except.ok _ => some { path := x.2.1, total := total, index := x.1 }
      | Except.error _ => none) := by
  induction comps generalizing idx with
  | nil => rfl
  | cons c rest ih =>
    obtain ⟨p, r⟩ := c
    cases r with
    | ok u =>
      cases u
      simp [batchEvents, List.enumFrom, List.filterMap_cons, ih]
    | error e =>
      simp [batchEvents, List.enumFrom, List.filterMap_cons, ih]

/-- C8 counterexample: a batch with a single task that fails emits no
progress event at all, although the task completed, because only the
success handler of a transfer task calls notify. -/
theorem c8_counterexample :
    batchEvents 1 0 [("/www/a.js".toList, Except.error "boom".toList)] = [] ∧
    ([("/www/a.js".toList, Except.error "boom".toList)] :
      List (FPath × Except Err Unit)).length = 1 :=
  ⟨rfl, rfl⟩

/-- C8 (amended): with the total fixed at batch start to the number of
tasks, each task that completes successfully emits exactly one progress
event carrying its path, that fixed total, and the number of tasks that
had settled strictly before it in completion order; a task that fails
emits no progress event. -/
theorem c8_amended_progress :
    ∀ comps : List (FPath × Except Err Unit),
      batchEvents comps.length 0 comps = specBatchEvents comps.length comps :=
  fun comps => batchEvents_eq_enumFrom comps.length 0 comps

/-- C9 counterexample: cloneProject with a completely empty fetched tree
has an empty task set, but instead of resolving as success it throws in
the task-count reduction (reduce of an empty array with no initial
value) and the operation never settles. -/
theorem c9_counterexample :
    cloneRun [] [] = none ∧
    cloneRun [] [] ≠ some (Except.ok (), []) :=
  ⟨rfl, fun h => Option.noConfusion h⟩

/-- C9 (amended): an empty transfer batch resolves immediately as
success with no progress events in uploadProject and downloadProject;
cloneProject does so as well provided the fetched tree is nonempty (for
example, all-directory), but on a completely empty fetched tree its
task-count reduction throws and the clone never settles. -/
theorem c9_amended_empty_batch :
    (∀ projectId : List Char,
      batchOutcome projectId [] = Except.ok projectId ∧
      batchEvents 0 0 [] = []) ∧
    (∀ files : FileTree, files ≠ [] →
      (∀ kv ∈ files, (Prod.snd kv).type = EType.dir) →
      cloneRun files [] = some (Except.ok (), [])) ∧
    cloneRun [] [] = none := by
  refine ⟨fun pid => ⟨rfl, rfl⟩, ?_, rfl⟩
  intro files hne _hdirs
  cases files with
  | nil => exact absurd rfl hne
  | cons kv rest =>
    simp [cloneRun, cloneTotalLength, qAll, batchEvents]

/-- Witness for the amended C9: the clone batch on a concrete nonempty
all-directory tree. -/
theorem c9_amended_empty_batch_witness :
    cloneRun demoDirTree [] = some (Except.ok (), []) :=
  c9_amended_empty_batch.2.1 demoDirTree (by decide) (by decide)
